import Mathlib

/-!
Shallow embedding of the PiKite control-loop core
(`src/pikite/core/timer.py`, `src/pikite/core/input_handler.py`,
`src/pikite/core/lcd_menu.py`) and proofs about its specification.

Modelling conventions:
* `time.perf_counter()` readings are modelled as explicit `ℚ` arguments
  (`now`): every method that reads the clock receives the reading as a
  parameter.  All clock reads inside one method call are the same `now`.
* Python `dict`s whose contents the claims inspect are modelled as
  association lists with first-match lookup and replace-or-append
  assignment, matching `dict` insertion-order semantics.
* `collections.defaultdict` subscripting (`d[k]`) is modelled by
  `ddGet`, which inserts (and returns) the default entry when the key is
  absent — exactly the `__missing__` behaviour of `defaultdict`.
* A method that mutates `self` becomes a function returning the new
  state; a method with a return value returns a pair.
-/

set_option linter.unusedVariables false

namespace PiKite

/-- First-match lookup in an association list, i.e. `d.get(k, None)`. -/
def dictGet {κ ν : Type} [DecidableEq κ] (d : List (κ × ν)) (k : κ) : Option ν :=
  match d with
  | [] => none
  | (k', v) :: rest => if k' = k then some v else dictGet rest k

/-- `d[k] = v` on a Python dict: replace the value of an existing key in
place (keeping insertion order), otherwise append the new binding. -/
def dictSet {κ ν : Type} [DecidableEq κ] (d : List (κ × ν)) (k : κ) (v : ν) :
    List (κ × ν) :=
  match d with
  | [] => [(k, v)]
  | (k', v') :: rest =>
      if k' = k then (k', v) :: rest else (k', v') :: dictSet rest k v

/-- `d[k]` on a `defaultdict`: return the stored value, or insert the
default and return it (`__missing__`).  Returns the value together with
the possibly-extended dict. -/
def ddGet {κ ν : Type} [DecidableEq κ] (d : List (κ × ν)) (k : κ) (default : ν) :
    ν × List (κ × ν) :=
  match dictGet d k with
  | some v => (v, d)
  | none => (default, d ++ [(k, default)])

/-! ## Timer (`src/pikite/core/timer.py`) -/

/-- `TimerState` enum. -/
inductive TimerState where
  | STOPPED
  | RUNNING
  | PAUSED
  deriving DecidableEq, Repr

/-- The mutable fields of a `Timer` instance.  Values that Python types
as `float | None` become `Option ℚ`; the `marks` and `named_intervals`
dicts become association lists. -/
structure Timer where
  start_time : Option ℚ
  initial_start_time : Option ℚ
  paused_time : Option ℚ
  accumulated : ℚ
  marks : List (String × ℚ)
  named_intervals : List (String × ℚ)
  state : TimerState
  deriving DecidableEq, Repr

namespace Timer

/-- `Timer.__init__`. -/
def init : Timer :=
  { start_time := none
    initial_start_time := none
    paused_time := none
    accumulated := 0
    marks := []
    named_intervals := []
    state := .STOPPED }

/-- The `running` property. -/
def running (t : Timer) : Bool := t.state = .RUNNING

/-- The `paused` property. -/
def paused (t : Timer) : Bool := t.state = .PAUSED

/-- The `stopped` property. -/
def stopped (t : Timer) : Bool := t.state = .STOPPED

/-- `Timer.elapsed`.  Running → `accumulated + (now - start_time)`;
Paused → `accumulated`; Stopped → `None` (with a logged warning).
The `RUNNING`/`start_time = none` case would be a `TypeError` in Python;
it is unreachable (see the state/start_time invariant) and modelled as
`none`. -/
def elapsed (t : Timer) (now : ℚ) : Option ℚ :=
  if t.running then
    match t.start_time with
    | some st => some (t.accumulated + (now - st))
    | none => none
  else if t.paused then
    some t.accumulated
  else
    none

/-- `Timer.start`.  No-op (plus a logged warning) while running or
paused. -/
def start (t : Timer) (now : ℚ) : Timer :=
  if t.running || t.paused then t
  else
    { start_time := some now
      initial_start_time := some now
      paused_time := none
      accumulated := 0
      marks := []
      named_intervals := []
      state := .RUNNING }

/-- `Timer.stop`.  Returns the final elapsed value and the new state;
no-op returning `None` while stopped. -/
def stop (t : Timer) (now : ℚ) : Option ℚ × Timer :=
  if t.stopped then (none, t)
  else (t.elapsed now, Timer.init)

/-- `Timer.pause`.  Folds the current running segment into
`accumulated`; no-op (with a logged warning) unless running.  The
`start_time = none` while running case (a `TypeError` in Python) is
unreachable and modelled as a no-op. -/
def pause (t : Timer) (now : ℚ) : Timer :=
  if t.running then
    match t.start_time with
    | some st =>
        { t with
          paused_time := some now
          accumulated := t.accumulated + (now - st)
          start_time := none
          state := .PAUSED }
    | none => t
  else t

/-- `Timer.resume`.  No-op (with a logged warning) unless paused. -/
def resume (t : Timer) (now : ℚ) : Timer :=
  if t.paused then
    { t with
      start_time := some now
      paused_time := none
      state := .RUNNING }
  else t

/-- `Timer.mark`: records `elapsed()` under `name` while running or
paused, otherwise a warning no-op. -/
def mark (t : Timer) (now : ℚ) (name : String) : Timer :=
  if t.running || t.paused then
    match t.elapsed now with
    | some e => { t with marks := dictSet t.marks name e }
    | none => t
  else t

/-- `Timer.set_named_interval`: records `elapsed()` under `name` while
running or paused, otherwise a warning no-op. -/
def set_named_interval (t : Timer) (now : ℚ) (name : String) : Timer :=
  if t.running || t.paused then
    match t.elapsed now with
    | some e => { t with named_intervals := dictSet t.named_intervals name e }
    | none => t
  else t

/-- `Timer.reset`.  Mirrors the statement order of the source: the new
`start_time` is set first, `accumulated` is zeroed and marks cleared,
then the interval dict is either cleared or every existing name is
re-recorded via `set_named_interval` (while the pre-reset `state` is
still in force), and finally a paused timer becomes running. -/
def reset (t : Timer) (now : ℚ) (clear_intervals : Bool) : Timer :=
  let t₁ : Timer :=
    { t with
      start_time := if t.running || t.paused then some now else none
      initial_start_time := if t.running || t.paused then some now else none
      paused_time := none
      accumulated := 0
      marks := [] }
  let t₂ : Timer :=
    if clear_intervals then { t₁ with named_intervals := [] }
    else (t₁.named_intervals.map Prod.fst).foldl
      (fun acc name => acc.set_named_interval now name) t₁
  if t₂.paused then { t₂ with state := .RUNNING } else t₂

/-- `Timer.interval_elapsed`.  Returns the boolean result together with
the new state. -/
def interval_elapsed (t : Timer) (now : ℚ) (interval : ℚ) (name : String)
    (catch_up : Bool) : Bool × Timer :=
  if t.stopped || t.paused then (false, t)
  else
    match dictGet t.named_intervals name with
    | none => (false, t.set_named_interval now name)
    | some last_interval_time =>
        match t.elapsed now with
        | none => (false, t)
        | some elapsed_time =>
            if elapsed_time - last_interval_time ≥ interval then
              (true,
               { t with
                 named_intervals :=
                   dictSet t.named_intervals name
                     (if catch_up then last_interval_time + interval
                      else elapsed_time) })
            else (false, t)

/-- The implicit invariant of claim C9: the timer is running exactly
when `start_time` is set. -/
def StartTimeInv (t : Timer) : Prop :=
  t.state = .RUNNING ↔ t.start_time ≠ none

instance (t : Timer) : Decidable t.StartTimeInv := by
  unfold StartTimeInv; infer_instance

end Timer

/-- A concrete running timer (started at time `0`, one named interval
boundary `"a"` recorded at elapsed time `1`), used as witness input. -/
def timerW : Timer :=
  { Timer.init with
    start_time := some 0
    initial_start_time := some 0
    named_intervals := [("a", 1)]
    state := .RUNNING }

/-! ## InputHandler (`src/pikite/core/input_handler.py`) -/

/-- `InputCommand` enum. -/
inductive InputCommand where
  | NEXT
  | PREVIOUS
  | SELECT
  | BACK
  | START_CAPTURE
  | STOP_CAPTURE
  | SHUTDOWN
  | REBOOT
  deriving DecidableEq, Repr

/-- `InputSource` enum (the first member is the source's `GPIO`,
renamed here). -/
inductive InputSource where
  | GPIO_BUTTON
  | WEBSOCKET
  | SYSTEM
  deriving DecidableEq, Repr

/-- An `InputHandler`.  The callback type `C` is abstract; Python
compares callbacks by object identity (`callback in list`), modelled by
`DecidableEq C`.  `listeners` is the two-level
`defaultdict(lambda: defaultdict(list))` (`self._listeners`), so
subscripting it inserts missing entries (`ddGet`); `active_scope` is
`self._active_scope`. -/
structure InputHandler (C : Type) where
  listeners : List (String × List (InputCommand × List C))
  active_scope : String
  deriving DecidableEq, Repr

namespace InputHandler

/-- `InputHandler.__init__`. -/
def init (C : Type) : InputHandler C :=
  { listeners := [], active_scope := "default" }

/-- `InputHandler.set_scope`. -/
def set_scope {C : Type} (h : InputHandler C) (scope : String) : InputHandler C :=
  if scope = h.active_scope then h else { h with active_scope := scope }

/-- `InputHandler.register`.  `self._listeners[scope][command]`
materializes both defaultdict levels; the callback list gains `callback`
unless an identical callback is already present. -/
def register {C : Type} [DecidableEq C] (h : InputHandler C) (scope : String)
    (command : InputCommand) (callback : C) : InputHandler C :=
  let r₁ := ddGet h.listeners scope []
  let r₂ := ddGet r₁.1 command []
  let outer := dictSet r₁.2 scope r₂.2
  if callback ∈ r₂.1 then { h with listeners := outer }
  else
    { h with
      listeners := dictSet outer scope (dictSet r₂.2 command (r₂.1 ++ [callback])) }

/-- The `for callback in callbacks` loop of `handle`: each invocation is
wrapped in `try/except Exception`, so a raised exception (an
`Except.error` result of `run`) is logged and the loop continues with
the remaining callbacks.  Returns the invocation trace: each callback
invoked, in order, paired with the result of its invocation. -/
def dispatchLoop {C : Type} (run : C → InputSource → Except String Unit)
    (source : InputSource) : List C → List (C × Except String Unit)
  | [] => []
  | cb :: rest => (cb, run cb source) :: dispatchLoop run source rest

/-- `InputHandler.handle`.  `run` gives the behaviour of each callback
(the extra `**kwargs` context is irrelevant to the claims and omitted).
`self._listeners[self._active_scope]` materializes the outer defaultdict
level; the inner `.get(command, [])` does not.  Returns the invocation
trace together with the new handler state. -/
def handle {C : Type} [DecidableEq C] (h : InputHandler C)
    (run : C → InputSource → Except String Unit) (command : InputCommand)
    (source : InputSource) :
    List (C × Except String Unit) × InputHandler C :=
  let r := ddGet h.listeners h.active_scope []
  let callbacks := (dictGet r.1 command).getD []
  (dispatchLoop run source callbacks, { h with listeners := r.2 })

/-- The callback list registered for a `(scope, command)` pair: the
content of the `listeners` table as a total map, with the defaultdict's
default (the empty list) for absent entries. -/
def callbacksFor {C : Type} (h : InputHandler C) (scope : String)
    (command : InputCommand) : List C :=
  (dictGet ((dictGet h.listeners scope).getD []) command).getD []

end InputHandler

/-- A concrete handler used as witness input: callbacks `1` then `2`
registered for `("default", NEXT)`, and `5` registered in the inactive
scope `"menu"`. -/
def handlerW : InputHandler ℕ :=
  (((InputHandler.init ℕ).register "default" .NEXT 1).register "default"
    .NEXT 2).register "menu" .NEXT 5

/-- A callback semantics for witnesses: callback `1` raises, all others
return normally. -/
def runW : ℕ → InputSource → Except String Unit :=
  fun cb _ => if cb = 1 then .error "boom" else .ok ()

/-! ## Menu (`src/pikite/core/lcd_menu.py`, `src/pikite/core/constants.py`) -/

namespace XMLTAG

def MENU : String := "menu"

def MENU_ITEM : String := "menu_item"

def OPTION_ITEM : String := "option_item"

def SETTING : String := "setting"

end XMLTAG

namespace XMLATTRIB

def NAME : String := "name"

def MESSAGE : String := "message"

def ACTION : String := "action"

def VALUE : String := "value"

end XMLATTRIB

namespace MENUACTION

def SUBMENU : String := "submenu"

def OPTIONS : String := "options"

end MENUACTION

/-- An `xml.etree.ElementTree.Element` as consumed by `MenuElement`:
a tag, an attribute dict, optional text content, and child elements. -/
inductive XElem where
  | mk (tag : String) (attrib : List (String × String)) (text : Option String)
      (children : List XElem)
  deriving Repr

def XElem.tag : XElem → String
  | .mk t _ _ _ => t

def XElem.attrib : XElem → List (String × String)
  | .mk _ a _ _ => a

def XElem.text : XElem → Option String
  | .mk _ _ tx _ => tx

def XElem.children : XElem → List XElem
  | .mk _ _ _ c => c

/-- `element.findall(tag)`: the direct children with the given tag, in
document order. -/
def XElem.findall (e : XElem) (tag : String) : List XElem :=
  e.children.filter (fun c => c.tag = tag)

/-- `element.find(tag)`: the first direct child with the given tag. -/
def XElem.find (e : XElem) (tag : String) : Option XElem :=
  e.children.find? (fun c => c.tag = tag)

/-- The fields of a `MenuElement` (the `parent` back-reference, which
makes the Python structure cyclic, is not a field here; claims about
sibling navigation model the parent's child list directly). -/
inductive MenuElement where
  | mk (tag name message action : String) (value setting : Option String)
      (options : Option (List MenuElement))
      (submenu : Option (List MenuElement))

def MenuElement.tag : MenuElement → String
  | .mk t _ _ _ _ _ _ _ => t

def MenuElement.action : MenuElement → String
  | .mk _ _ _ a _ _ _ _ => a

def MenuElement.options : MenuElement → Option (List MenuElement)
  | .mk _ _ _ _ _ _ o _ => o

def MenuElement.submenu : MenuElement → Option (List MenuElement)
  | .mk _ _ _ _ _ _ _ s => s

/-- `MenuElement.__init__`.  The `if option_item_elems is not None`
dance in the source is folded into a single conditional: the child lists
are parsed exactly when Python would parse them (`findall` returns a
list, never `None`, so `options`/`submenu` are non-`None` exactly when
the corresponding branch ran). -/
def buildMenuElement (e : XElem) : MenuElement :=
  let action := (dictGet e.attrib XMLATTRIB.ACTION).getD "pass"
  MenuElement.mk e.tag
    ((dictGet e.attrib XMLATTRIB.NAME).getD ("Tag: " ++ e.tag))
    ((dictGet e.attrib XMLATTRIB.MESSAGE).getD ("Tag: " ++ e.tag))
    action
    (dictGet e.attrib XMLATTRIB.VALUE)
    ((e.find XMLTAG.SETTING).bind XElem.text)
    (if action = MENUACTION.OPTIONS then
      some ((e.findall XMLTAG.OPTION_ITEM).attach.map
        (fun c => buildMenuElement c.1))
    else none)
    (if e.tag = XMLTAG.MENU ∨ action = MENUACTION.SUBMENU then
      some ((e.findall XMLTAG.MENU_ITEM).attach.map
        (fun c => buildMenuElement c.1))
    else none)
termination_by e
decreasing_by
  all_goals
    cases e with
    | mk t a tx ch =>
        have h1 := List.sizeOf_lt_of_mem
          (List.mem_of_mem_filter (by exact c.2))
        simp only [XElem.findall, XElem.children] at h1 ⊢
        simp only [XElem.mk.sizeOf_spec]
        omega

/-- Python list subscripting `l[i]` (CPython semantics): a negative
index addresses from the end of the list; an out-of-range index raises
`IndexError` (modelled as `none`). -/
def pyGet {α : Type} (l : List α) (i : Int) : Option α :=
  if 0 ≤ i then l.get? i.toNat
  else if -i ≤ (l.length : Int) then l.get? (l.length - (-i).toNat) else none

/-- `list.index(x)`: the first position of `x`.  Python raises
`ValueError` when `x` is absent; that case is unreachable under the
claims' hypotheses and returns the junk value `l.length`. -/
def listIndex {α : Type} [DecidableEq α] (l : List α) (x : α) : ℕ :=
  match l with
  | [] => 0
  | y :: rest => if y = x then 0 else 1 + listIndex rest x

/-- The Menu navigation state over one fixed sibling list.  In the
source the sibling list is `current_element.parent.options` when the
current element is an `option_item`, else `current_element.parent.submenu`;
all siblings share the same parent and the tree is immutable, so the
list is constant across `increment_element`/`decrement_element` moves
and is carried as a field. -/
structure MenuNav (α : Type) where
  siblings : List α
  current_element : α
  previous_element : α
  next_element : α
  deriving DecidableEq, Repr

namespace MenuNav

/-- `Menu._get_adjacent_elements`: recomputes `previous_element` and
`next_element` from the current element's index.  `previous_element` is
`siblings[current_index - 1]` (Python's negative indexing wraps `-1` to
the last element); `next_element` is `siblings[current_index + 1]`
unless the cursor is at the last index, in which case `siblings[0]`.
The out-of-range `none` cases are unreachable when the current element
is in the (non-empty) sibling list; they keep the old field value. -/
def getAdjacentElements {α : Type} [DecidableEq α] (m : MenuNav α) : MenuNav α :=
  let current_index := listIndex m.siblings m.current_element
  let max_index := m.siblings.length - 1
  { m with
    previous_element :=
      (pyGet m.siblings ((current_index : Int) - 1)).getD m.previous_element
    next_element :=
      (if current_index ≠ max_index then
        pyGet m.siblings ((current_index : Int) + 1)
      else pyGet m.siblings 0).getD m.next_element }

/-- `Menu.increment_element` (`update_menu`'s display call is an
external side effect and is dropped). -/
def increment_element {α : Type} [DecidableEq α] (m : MenuNav α) : MenuNav α :=
  getAdjacentElements { m with current_element := m.next_element }

/-- `Menu.decrement_element`. -/
def decrement_element {α : Type} [DecidableEq α] (m : MenuNav α) : MenuNav α :=
  getAdjacentElements { m with current_element := m.previous_element }

end MenuNav

/-- The index of the previous sibling as computed by
`_get_adjacent_elements` (`siblings[i - 1]`, wrapping `0` to the end via
Python's negative indexing). -/
def wrapPred (len i : ℕ) : ℕ := if i = 0 then len - 1 else i - 1

/-- The index of the next sibling as computed by
`_get_adjacent_elements` (`siblings[i + 1]`, or `siblings[0]` from the
last index). -/
def wrapSucc (len i : ℕ) : ℕ := if i = len - 1 then 0 else i + 1

/-- `m` is the Menu cursor state sitting at index `i` of its sibling
list, with `previous_element`/`next_element` as
`_get_adjacent_elements` computes them. -/
def MenuNav.IsAt {α : Type} (m : MenuNav α) (i : ℕ) : Prop :=
  i < m.siblings.length ∧
  m.siblings.get? i = some m.current_element ∧
  m.siblings.get? (wrapPred m.siblings.length i) = some m.previous_element ∧
  m.siblings.get? (wrapSucc m.siblings.length i) = some m.next_element

/-- Well-formed Menu cursor: the sibling list has no duplicates (Python
compares `MenuElement`s by object identity, so distinct positions hold
distinct elements) and the cursor sits at some index with consistent
adjacent elements. -/
def MenuNav.WF {α : Type} (m : MenuNav α) : Prop :=
  m.siblings.Nodup ∧ ∃ i, m.IsAt i

/-! ## Dict lemmas -/

@[simp] theorem dictGet_nil {κ ν : Type} [DecidableEq κ] (k : κ) :
    dictGet ([] : List (κ × ν)) k = none := rfl

@[simp] theorem dictGet_cons {κ ν : Type} [DecidableEq κ] (k k' : κ) (v : ν)
    (rest : List (κ × ν)) :
    dictGet ((k', v) :: rest) k = if k' = k then some v else dictGet rest k := rfl

@[simp] theorem dictSet_nil {κ ν : Type} [DecidableEq κ] (k : κ) (v : ν) :
    dictSet ([] : List (κ × ν)) k v = [(k, v)] := rfl

theorem dictGet_dictSet_self {κ ν : Type} [DecidableEq κ]
    (d : List (κ × ν)) (k : κ) (v : ν) : dictGet (dictSet d k v) k = some v := by
  induction d with
  | nil => simp [dictGet, dictSet]
  | cons p rest ih =>
      obtain ⟨k', v'⟩ := p
      by_cases h : k' = k <;> simp [dictGet, dictSet, h, ih]

theorem dictGet_dictSet_ne {κ ν : Type} [DecidableEq κ]
    (d : List (κ × ν)) (k k' : κ) (v : ν) (hne : k ≠ k') :
    dictGet (dictSet d k v) k' = dictGet d k' := by
  induction d with
  | nil => simp [dictGet, dictSet, hne]
  | cons p rest ih =>
      obtain ⟨k'', v''⟩ := p
      by_cases h : k'' = k
      · subst h; simp [dictGet, dictSet, hne]
      · simp [dictGet, dictSet, h, ih]

theorem dictGet_append {κ ν : Type} [DecidableEq κ]
    (d₁ d₂ : List (κ × ν)) (k : κ) :
    dictGet (d₁ ++ d₂) k = ((dictGet d₁ k).rec (dictGet d₂ k) some) := by
  induction d₁ with
  | nil => simp [dictGet]
  | cons p rest ih =>
      obtain ⟨k', v'⟩ := p
      by_cases h : k' = k <;> simp [dictGet, h, ih]

/-! ## Timer lemmas -/

namespace Timer

theorem set_named_interval_fields (t : Timer) (now : ℚ) (name : String) :
    (t.set_named_interval now name).state = t.state ∧
    (t.set_named_interval now name).start_time = t.start_time ∧
    (t.set_named_interval now name).accumulated = t.accumulated ∧
    (t.set_named_interval now name).marks = t.marks ∧
    (t.set_named_interval now name).paused_time = t.paused_time ∧
    (t.set_named_interval now name).initial_start_time = t.initial_start_time := by
  unfold set_named_interval
  split
  · split <;> exact ⟨rfl, rfl, rfl, rfl, rfl, rfl⟩
  · exact ⟨rfl, rfl, rfl, rfl, rfl, rfl⟩

theorem set_named_interval_of_paused (t : Timer) (now : ℚ) (name : String)
    (h : t.state = .PAUSED) :
    t.set_named_interval now name =
      { t with named_intervals := dictSet t.named_intervals name t.accumulated } := by
  unfold set_named_interval elapsed running paused
  simp [h]

/-- The interval-rebasing loop of `reset`, run while paused: every listed
name is re-recorded at the (zeroed) accumulated time. -/
theorem foldl_set_named_interval_of_paused (now : ℚ) (names : List String)
    (acc : Timer) (h : acc.state = .PAUSED) :
    names.foldl (fun a n => a.set_named_interval now n) acc =
      { acc with
        named_intervals :=
          names.foldl (fun d n => dictSet d n acc.accumulated) acc.named_intervals } := by
  induction names generalizing acc with
  | nil => simp
  | cons n rest ih =>
      simp only [List.foldl_cons]
      rw [set_named_interval_of_paused acc now n h,
        ih { acc with named_intervals := dictSet acc.named_intervals n acc.accumulated } h]

theorem foldl_set_named_interval_state (now : ℚ) (names : List String)
    (acc : Timer) :
    (names.foldl (fun a n => a.set_named_interval now n) acc).state = acc.state ∧
    (names.foldl (fun a n => a.set_named_interval now n) acc).start_time
      = acc.start_time := by
  induction names generalizing acc with
  | nil => exact ⟨rfl, rfl⟩
  | cons n rest ih =>
      simp only [List.foldl_cons]
      obtain ⟨h1, h2⟩ := ih (acc.set_named_interval now n)
      obtain ⟨g1, g2, _⟩ := set_named_interval_fields acc now n
      exact ⟨h1.trans g1, h2.trans g2⟩

end Timer

/-- Folding constant-value dict assignments: a key listed in `names`
ends up bound to `v`; any other key keeps its old binding. -/
theorem dictGet_foldl_dictSet (names : List String) (d : List (String × ℚ))
    (v : ℚ) (n : String) :
    dictGet (names.foldl (fun d' k => dictSet d' k v) d) n =
      if n ∈ names then some v else dictGet d n := by
  induction names generalizing d with
  | nil => simp
  | cons k rest ih =>
      simp only [List.foldl_cons]
      rw [ih]
      by_cases hr : n ∈ rest
      · simp [hr]
      · by_cases hk : k = n
        · subst hk
          simp [hr, dictGet_dictSet_self]
        · have : n ∈ k :: rest ↔ n ∈ rest := by
            constructor
            · intro h
              rcases List.mem_cons.mp h with h | h
              · exact absurd h.symm hk
              · exact h
            · exact List.mem_cons_of_mem k
          rw [dictGet_dictSet_ne d k n v hk]
          simp [this, hr]

theorem dictGet_eq_none_of_not_mem_keys {d : List (String × ℚ)} {k : String}
    (h : k ∉ d.map Prod.fst) : dictGet d k = none := by
  induction d with
  | nil => rfl
  | cons p rest ih =>
      obtain ⟨k', v'⟩ := p
      simp only [List.map_cons, List.mem_cons] at h
      push_neg at h
      rw [dictGet_cons, if_neg (fun hh => h.1 hh.symm)]
      exact ih h.2

theorem mem_keys_of_dictGet_eq_some {d : List (String × ℚ)} {k : String} {v : ℚ}
    (h : dictGet d k = some v) : k ∈ d.map Prod.fst := by
  induction d with
  | nil => simp [dictGet] at h
  | cons p rest ih =>
      obtain ⟨k', v'⟩ := p
      by_cases hk : k' = k
      · subst hk; simp
      · simp only [dictGet, if_neg hk] at h
        exact List.mem_cons_of_mem _ (ih h)

theorem dictGet_isSome_of_mem_keys {d : List (String × ℚ)} {k : String}
    (h : k ∈ d.map Prod.fst) : (dictGet d k).isSome := by
  induction d with
  | nil => simp at h
  | cons p rest ih =>
      obtain ⟨k', v'⟩ := p
      by_cases hk : k' = k
      · simp [dictGet, hk]
      · rcases List.mem_cons.mp h with h' | h'
        · exact absurd h'.symm hk
        · simpa [dictGet, hk] using ih h'

namespace Timer

theorem set_named_interval_of_running (t : Timer) (now st : ℚ) (name : String)
    (hr : t.state = .RUNNING) (hst : t.start_time = some st) :
    t.set_named_interval now name =
      { t with named_intervals :=
          dictSet t.named_intervals name (t.accumulated + (now - st)) } := by
  unfold set_named_interval elapsed running paused
  simp [hr, hst]

/-- The `state` and `start_time` reached by `reset`. -/
theorem reset_state_start_time (t : Timer) (now : ℚ) (b : Bool) :
    (t.reset now b).state = (if t.state = .PAUSED then .RUNNING else t.state) ∧
    (t.reset now b).start_time =
      (if t.state = .RUNNING ∨ t.state = .PAUSED then some now else none) := by
  unfold reset
  cases b with
  | true =>
      cases hs : t.state <;>
        simp [Timer.running, Timer.paused, hs]
  | false =>
      obtain ⟨hfs, hft⟩ := foldl_set_named_interval_state now
        (List.map Prod.fst t.named_intervals)
        { t with
          start_time := if t.running || t.paused then some now else none
          initial_start_time := if t.running || t.paused then some now else none
          paused_time := none
          accumulated := 0
          marks := [] }
      cases hs : t.state <;>
        simp_all [Timer.running, Timer.paused, hs]

/-- Full characterization of `reset` from the Paused state. -/
theorem reset_of_paused (t : Timer) (now : ℚ) (b : Bool)
    (hs : t.state = .PAUSED) :
    t.reset now b =
      { start_time := some now
        initial_start_time := some now
        paused_time := none
        accumulated := 0
        marks := []
        named_intervals :=
          if b then []
          else (t.named_intervals.map Prod.fst).foldl
            (fun d n => dictSet d n 0) t.named_intervals
        state := .RUNNING } := by
  unfold reset
  cases b with
  | true =>
      simp [Timer.running, Timer.paused, hs]
  | false =>
      simp only [Bool.false_eq_true, if_false]
      rw [foldl_set_named_interval_of_paused now _ _ (by exact hs)]
      simp [Timer.running, Timer.paused, hs]

end Timer

/-- C3: calling `start()` while Running or Paused, `pause()` while not
Running, `resume()` while not Paused, or `stop()` while Stopped is a
warning-only no-op that leaves every Timer field unchanged (and for
`stop()` returns `None`); `stop()` from Running or Paused returns the
final `elapsed()` value and resets all fields to their Stopped-state
initial values. -/
theorem timer_invalid_transitions_are_noops (t : Timer) (now : ℚ) :
    ((t.state = .RUNNING ∨ t.state = .PAUSED) → t.start now = t) ∧
    (t.state ≠ .RUNNING → t.pause now = t) ∧
    (t.state ≠ .PAUSED → t.resume now = t) ∧
    (t.state = .STOPPED → t.stop now = (none, t)) ∧
    (t.state ≠ .STOPPED → t.stop now = (t.elapsed now, Timer.init)) := by
  unfold Timer.start Timer.pause Timer.resume Timer.stop
    Timer.running Timer.paused Timer.stopped
  cases hs : t.state <;> simp [hs]

theorem timer_invalid_transitions_are_noops_witness :
    ((Timer.init.start 0).start 1 = Timer.init.start 0) ∧
    (Timer.init.pause 1 = Timer.init) ∧
    (Timer.init.resume 1 = Timer.init) ∧
    (Timer.init.stop 1 = (none, Timer.init)) ∧
    ((Timer.init.start 0).stop 1 = ((Timer.init.start 0).elapsed 1, Timer.init)) := by
  have h₁ := timer_invalid_transitions_are_noops (Timer.init.start 0) 1
  have h₂ := timer_invalid_transitions_are_noops Timer.init 1
  exact ⟨h₁.1 (Or.inl (by decide)), h₂.2.1 (by decide), h₂.2.2.1 (by decide),
    h₂.2.2.2.1 (by decide), h₁.2.2.2.2 (by decide)⟩

/-- C9 (implicit): every Timer operation preserves the invariant that
`state = RUNNING` holds exactly when `start_time` is set (equivalently,
`start_time` is `None` exactly while Stopped or Paused). -/
theorem timer_start_time_invariant (t : Timer) (now interval : ℚ)
    (name : String) (clear_intervals catch_up : Bool) (h : t.StartTimeInv) :
    (t.start now).StartTimeInv ∧
    ((t.stop now).2).StartTimeInv ∧
    (t.pause now).StartTimeInv ∧
    (t.resume now).StartTimeInv ∧
    (t.reset now clear_intervals).StartTimeInv ∧
    (t.mark now name).StartTimeInv ∧
    (t.set_named_interval now name).StartTimeInv ∧
    ((t.interval_elapsed now interval name catch_up).2).StartTimeInv := by
  have hreset : (t.reset now clear_intervals).StartTimeInv := by
    obtain ⟨h1, h2⟩ := Timer.reset_state_start_time t now clear_intervals
    unfold Timer.StartTimeInv
    rw [h1, h2]
    cases hs : t.state <;> simp
  have hsni : (t.set_named_interval now name).StartTimeInv := by
    obtain ⟨h1, h2, _⟩ := Timer.set_named_interval_fields t now name
    unfold Timer.StartTimeInv
    rw [h1, h2]; exact h
  have hie : ((t.interval_elapsed now interval name catch_up).2).StartTimeInv := by
    unfold Timer.interval_elapsed
    split
    · exact h
    · split
      · exact hsni
      · split
        · exact h
        · split
          · unfold Timer.StartTimeInv at h ⊢
            exact h
          · exact h
  refine ⟨?_, ?_, ?_, ?_, hreset, ?_, hsni, hie⟩
  · unfold Timer.start Timer.running Timer.paused
    unfold Timer.StartTimeInv at h ⊢
    cases hs : t.state <;> simp_all
  · unfold Timer.stop Timer.stopped
    unfold Timer.StartTimeInv at h ⊢
    cases hs : t.state <;> simp_all [Timer.init]
  · unfold Timer.pause Timer.running
    unfold Timer.StartTimeInv at h ⊢
    cases hs : t.state <;> simp_all
    · cases hst : t.start_time <;> simp_all
  · unfold Timer.resume Timer.paused
    unfold Timer.StartTimeInv at h ⊢
    cases hs : t.state <;> simp_all
  · unfold Timer.mark Timer.running Timer.paused
    unfold Timer.StartTimeInv at h ⊢
    cases hs : t.state <;> simp_all <;>
      · split <;> simp_all

theorem timer_start_time_invariant_witness :
    Timer.init.StartTimeInv ∧ ((Timer.init.start 0).reset 2 false).StartTimeInv := by
  have h := timer_start_time_invariant (Timer.init.start 0) 2 1 "a" false true
    (by decide)
  exact ⟨by decide, h.2.2.2.2.1⟩

/-- C4: `elapsed()` returns a value iff the state is not Stopped; while
Running it equals `accumulated + (now - start_time)`; while Paused it
equals `accumulated` and does not advance with the clock; and a
`pause()` at time `p` followed by `resume()` at time `r` excludes the
whole paused duration `r - p` from subsequent `elapsed()` readings. -/
theorem timer_elapsed_spec (t : Timer) (now now' p r q st : ℚ)
    (h : t.StartTimeInv) :
    ((t.elapsed now).isSome ↔ t.state ≠ .STOPPED) ∧
    (t.state = .RUNNING → t.start_time = some st →
      t.elapsed now = some (t.accumulated + (now - st))) ∧
    (t.state = .PAUSED →
      t.elapsed now = some t.accumulated ∧ t.elapsed now = t.elapsed now') ∧
    (t.state = .RUNNING → t.start_time = some st →
      ((t.pause p).resume r).elapsed q =
        some (t.accumulated + (p - st) + (q - r))) := by
  unfold Timer.StartTimeInv at h
  cases hs : t.state with
  | STOPPED =>
      refine ⟨?_, by simp [hs], by simp [hs], by simp [hs]⟩
      unfold Timer.elapsed Timer.running Timer.paused
      simp [hs]
  | PAUSED =>
      refine ⟨?_, by simp [hs], ?_, by simp [hs]⟩
      · unfold Timer.elapsed Timer.running Timer.paused
        simp [hs]
      · intro _
        unfold Timer.elapsed Timer.running Timer.paused
        simp [hs]
  | RUNNING =>
      have hne : t.start_time ≠ none := h.mp hs
      obtain ⟨st', hst'⟩ := Option.ne_none_iff_exists'.mp hne
      refine ⟨?_, ?_, by simp [hs], ?_⟩
      · unfold Timer.elapsed Timer.running
        simp [hs, hst']
      · intro _ hst
        unfold Timer.elapsed Timer.running
        simp [hs, hst]
      · intro _ hst
        unfold Timer.pause Timer.running
        rw [if_pos (by simp [hs]), hst]
        unfold Timer.resume Timer.paused
        rw [if_pos (by simp)]
        unfold Timer.elapsed Timer.running
        simp [add_sub_assoc]

theorem timer_elapsed_spec_witness :
    (Timer.init.start 0).StartTimeInv ∧
    (((Timer.init.start 0).elapsed 3).isSome ↔
      (Timer.init.start 0).state ≠ .STOPPED) ∧
    (((Timer.init.start 0).pause 3).resume 5).elapsed 7 = some 5 := by
  have h := timer_elapsed_spec (Timer.init.start 0) 3 4 3 5 7 0 (by decide)
  have hacc : (Timer.init.start 0).accumulated = (0 : ℚ) := rfl
  refine ⟨by decide, h.1, ?_⟩
  rw [h.2.2.2 (by decide) (by decide), hacc]
  norm_num

/-- C1: `interval_elapsed(interval, name, catch_up)` returns `false`
without mutation while Stopped or Paused; while Running with no recorded
boundary for `name` it records the current `elapsed()` as the boundary
and returns `false`; while Running with a recorded boundary it returns
`true` and advances the boundary (by exactly `interval` when `catch_up`,
to the current `elapsed()` otherwise) when
`elapsed() - boundary ≥ interval`, and otherwise returns `false` leaving
`named_intervals` unchanged. -/
theorem timer_interval_elapsed_spec (t : Timer) (now interval st : ℚ)
    (name : String) (catch_up : Bool) :
    ((t.state = .STOPPED ∨ t.state = .PAUSED) →
      t.interval_elapsed now interval name catch_up = (false, t)) ∧
    (t.state = .RUNNING → t.start_time = some st →
      (dictGet t.named_intervals name = none →
        t.interval_elapsed now interval name catch_up =
          (false, { t with
            named_intervals := dictSet t.named_intervals name
              (t.accumulated + (now - st)) })) ∧
      (∀ last, dictGet t.named_intervals name = some last →
        (t.accumulated + (now - st) - last ≥ interval →
          t.interval_elapsed now interval name catch_up =
            (true, { t with
              named_intervals := dictSet t.named_intervals name
                (if catch_up then last + interval
                  else t.accumulated + (now - st)) })) ∧
        (t.accumulated + (now - st) - last < interval →
          t.interval_elapsed now interval name catch_up = (false, t)))) := by
  constructor
  · intro hs
    unfold Timer.interval_elapsed Timer.stopped Timer.paused
    rcases hs with hs | hs <;> simp [hs]
  · intro hr hst
    have helapsed : t.elapsed now = some (t.accumulated + (now - st)) := by
      unfold Timer.elapsed Timer.running
      simp [hr, hst]
    constructor
    · intro hget
      unfold Timer.interval_elapsed Timer.stopped Timer.paused
      rw [if_neg (by simp [hr]), hget]
      dsimp only
      rw [Timer.set_named_interval_of_running t now st name hr hst]
    · intro last hget
      constructor
      · intro hge
        unfold Timer.interval_elapsed Timer.stopped Timer.paused
        rw [if_neg (by simp [hr]), hget, helapsed]
        dsimp only
        rw [if_pos hge]
      · intro hlt
        unfold Timer.interval_elapsed Timer.stopped Timer.paused
        rw [if_neg (by simp [hr]), hget, helapsed]
        dsimp only
        rw [if_neg (not_le.mpr hlt)]

theorem timer_interval_elapsed_spec_witness :
    Timer.init.interval_elapsed 1 2 "a" true = (false, Timer.init) ∧
    ({ timerW with named_intervals := [] }).interval_elapsed 1 2 "a" true =
      (false, { timerW with named_intervals := [("a", 1)] }) ∧
    timerW.interval_elapsed 4 2 "a" true =
      (true, { timerW with named_intervals := [("a", 3)] }) ∧
    timerW.interval_elapsed 2 2 "a" true = (false, timerW) := by
  refine ⟨(timer_interval_elapsed_spec Timer.init 1 2 0 "a" true).1
    (Or.inl (by decide)), ?_, ?_, ?_⟩
  · rw [((timer_interval_elapsed_spec ({ timerW with named_intervals := [] })
      1 2 0 "a" true).2 (by decide) (by decide)).1 (by decide)]
    norm_num [timerW, Timer.init, dictSet]
  · rw [(((timer_interval_elapsed_spec timerW 4 2 0 "a" true).2
      (by decide) (by decide)).2 1 (by decide)).1
      (by norm_num [timerW, Timer.init])]
    norm_num [timerW, Timer.init, dictSet]
  · exact (((timer_interval_elapsed_spec timerW 2 2 0 "a" true).2
      (by decide) (by decide)).2 1 (by decide)).2
      (by norm_num [timerW, Timer.init])

/-- C10 (implicit): `reset()` on a Paused timer silently transitions to
Running, zeroes `accumulated`, clears the marks, sets `start_time` to
the current time, and clears `named_intervals` when `clear_intervals` or
re-bases every existing named interval to the new elapsed time `0`
otherwise; on a Stopped timer it leaves the state Stopped with
`start_time = None`. -/
theorem timer_reset_spec (t : Timer) (now : ℚ) (clear_intervals : Bool) :
    (t.state = .PAUSED →
      (t.reset now clear_intervals).state = .RUNNING ∧
      (t.reset now clear_intervals).accumulated = 0 ∧
      (t.reset now clear_intervals).marks = [] ∧
      (t.reset now clear_intervals).start_time = some now ∧
      (clear_intervals = true →
        (t.reset now clear_intervals).named_intervals = []) ∧
      (clear_intervals = false → ∀ n,
        dictGet (t.reset now clear_intervals).named_intervals n =
          (dictGet t.named_intervals n).map (fun _ => (0 : ℚ)))) ∧
    (t.state = .STOPPED →
      (t.reset now clear_intervals).state = .STOPPED ∧
      (t.reset now clear_intervals).start_time = none) := by
  obtain ⟨hstate, hstart⟩ := Timer.reset_state_start_time t now clear_intervals
  constructor
  · intro hs
    rw [Timer.reset_of_paused t now clear_intervals hs]
    refine ⟨rfl, rfl, rfl, rfl, ?_, ?_⟩
    · intro hb; subst hb; simp
    · intro hb n; subst hb
      simp only [Bool.false_eq_true, if_false]
      rw [dictGet_foldl_dictSet]
      cases hget : dictGet t.named_intervals n with
      | none =>
          rw [if_neg]
          · simp [hget]
          · intro hmem
            have := dictGet_isSome_of_mem_keys hmem
            rw [hget] at this
            simp at this
      | some v =>
          rw [if_pos (mem_keys_of_dictGet_eq_some hget)]
          simp
  · intro hs
    refine ⟨by rw [hstate]; simp [hs], by rw [hstart]; simp [hs]⟩

theorem timer_reset_spec_witness :
    ((((Timer.init.start 0).set_named_interval 1 "a").pause 3).reset 10
        false).state = .RUNNING ∧
    ((((Timer.init.start 0).set_named_interval 1 "a").pause 3).reset 10
        false).start_time = some 10 ∧
    dictGet ((((Timer.init.start 0).set_named_interval 1 "a").pause 3).reset 10
        false).named_intervals "a" = some 0 ∧
    (Timer.init.reset 10 true).state = .STOPPED := by
  have h := (timer_reset_spec
    (((Timer.init.start 0).set_named_interval 1 "a").pause 3) 10 false).1
    (by decide)
  have h₂ := (timer_reset_spec Timer.init 10 true).2 (by decide)
  refine ⟨h.1, h.2.2.2.1, ?_, h₂.1⟩
  rw [h.2.2.2.2.2 rfl "a"]
  decide

/-! ## InputHandler lemmas -/

theorem ddGet_fst {κ ν : Type} [DecidableEq κ] (d : List (κ × ν)) (k : κ)
    (default : ν) : (ddGet d k default).1 = (dictGet d k).getD default := by
  unfold ddGet
  cases h : dictGet d k <;> simp [h]

theorem ddGet_snd_get {κ ν : Type} [DecidableEq κ] (d : List (κ × ν)) (k x : κ)
    (default : ν) :
    dictGet (ddGet d k default).2 x =
      if x = k then some ((dictGet d k).getD default) else dictGet d x := by
  unfold ddGet
  cases h : dictGet d k with
  | some v =>
      by_cases hx : x = k
      · subst hx; simp [h]
      · simp [hx]
  | none =>
      by_cases hx : x = k
      · subst hx
        rw [dictGet_append]
        simp [h, dictGet]

      · rw [dictGet_append]
        have hkx : ¬k = x := fun e => hx e.symm
        cases h2 : dictGet d x <;> simp [h2, dictGet, hx, hkx]

namespace InputHandler

theorem dispatchLoop_eq_map {C : Type} (run : C → InputSource → Except String Unit)
    (source : InputSource) (cbs : List C) :
    dispatchLoop run source cbs = cbs.map (fun cb => (cb, run cb source)) := by
  induction cbs with
  | nil => rfl
  | cons cb rest ih => simp [dispatchLoop, ih]

/-- What one `handle` call does: the trace invokes exactly the callbacks
registered for `(active_scope, command)` in order, the active scope is
unchanged, and the registered callbacks of every pair are unchanged. -/
theorem handle_spec {C : Type} [DecidableEq C] (h : InputHandler C)
    (run : C → InputSource → Except String Unit) (command : InputCommand)
    (source : InputSource) :
    (h.handle run command source).1 =
      (h.callbacksFor h.active_scope command).map (fun cb => (cb, run cb source)) ∧
    (h.handle run command source).2.active_scope = h.active_scope ∧
    ∀ s c, (h.handle run command source).2.callbacksFor s c = h.callbacksFor s c := by
  unfold handle
  dsimp only
  refine ⟨?_, rfl, ?_⟩
  · rw [dispatchLoop_eq_map, ddGet_fst]
    rfl
  · intro s c
    unfold callbacksFor
    dsimp only
    rw [ddGet_snd_get]
    by_cases hs : s = h.active_scope
    · subst hs; simp
    · simp [hs]

/-- What one `register` call does to the registered-callback table. -/
theorem callbacksFor_register {C : Type} [DecidableEq C] (h : InputHandler C)
    (scope s : String) (command c : InputCommand) (cb : C) :
    (h.register scope command cb).callbacksFor s c =
      (if s = scope ∧ c = command ∧ cb ∉ h.callbacksFor scope command then
        h.callbacksFor scope command ++ [cb]
      else h.callbacksFor s c) := by
  have hsel : (ddGet (ddGet h.listeners scope
      ([] : List (InputCommand × List C))).1 command ([] : List C)).1 =
      h.callbacksFor scope command := by
    rw [ddGet_fst, ddGet_fst]; rfl
  unfold register
  dsimp only
  by_cases hmem : cb ∈ (ddGet (ddGet h.listeners scope
      ([] : List (InputCommand × List C))).1 command ([] : List C)).1
  · rw [if_pos hmem]
    rw [hsel] at hmem
    rw [if_neg (fun hcond => hcond.2.2 hmem)]
    unfold callbacksFor
    dsimp only
    by_cases hs : s = scope
    · subst hs
      rw [dictGet_dictSet_self]
      by_cases hc : c = command
      · subst hc
        simp only [Option.getD_some]
        rw [ddGet_snd_get, if_pos rfl, ddGet_fst]
        rfl
      · simp only [Option.getD_some]
        rw [ddGet_snd_get, if_neg hc, ddGet_fst]
    · rw [dictGet_dictSet_ne _ _ _ _ (fun e => hs e.symm), ddGet_snd_get,
        if_neg hs]
  · rw [if_neg hmem]
    rw [hsel] at hmem
    by_cases hs : s = scope
    · subst hs
      by_cases hc : c = command
      · subst hc
        rw [if_pos ⟨rfl, rfl, hmem⟩]
        unfold callbacksFor
        dsimp only
        rw [dictGet_dictSet_self]
        simp only [Option.getD_some]
        rw [dictGet_dictSet_self]
        simp only [Option.getD_some]
        rw [ddGet_fst, ddGet_fst]
      · rw [if_neg (fun hcond => hc hcond.2.1)]
        unfold callbacksFor
        dsimp only
        rw [dictGet_dictSet_self]
        simp only [Option.getD_some]
        rw [dictGet_dictSet_ne _ _ _ _ (fun e => hc e.symm), ddGet_snd_get,
          if_neg hc, ddGet_fst]
    · rw [if_neg (fun hcond => hs hcond.1)]
      unfold callbacksFor
      dsimp only
      rw [dictGet_dictSet_ne _ _ _ _ (fun e => hs e.symm),
        dictGet_dictSet_ne _ _ _ _ (fun e => hs e.symm), ddGet_snd_get,
        if_neg hs]

theorem register_active_scope {C : Type} [DecidableEq C] (h : InputHandler C)
    (scope : String) (command : InputCommand) (cb : C) :
    (h.register scope command cb).active_scope = h.active_scope := by
  unfold register
  dsimp only
  split <;> rfl

end InputHandler

/-- C2 counterexample: on a fresh handler (no scope materialized yet),
`handle` of an unregistered command mutates the listeners mapping — the
`defaultdict` subscript `self._listeners[self._active_scope]` inserts an
empty entry for the active scope. -/
theorem inputhandler_handle_unbound_counterexample :
    ((InputHandler.init ℕ).handle (fun _ _ => .ok ()) .NEXT .GPIO_BUTTON).2.listeners ≠
      (InputHandler.init ℕ).listeners ∧
    ((InputHandler.init ℕ).handle (fun _ _ => .ok ()) .NEXT .GPIO_BUTTON).2.listeners =
      [("default", [])] := by
  constructor
  · decide
  · decide

/-- C2 (amended): `handle` with no callback registered for
`(active_scope, command)` invokes nothing, does not raise, and leaves
the active scope and the registered callbacks of every (scope, command)
pair unchanged; the only possible state change is the materialization of
an empty defaultdict entry for the active scope. -/
theorem inputhandler_handle_unbound_noop {C : Type} [DecidableEq C]
    (h : InputHandler C) (run : C → InputSource → Except String Unit)
    (command : InputCommand) (source : InputSource)
    (hno : h.callbacksFor h.active_scope command = []) :
    (h.handle run command source).1 = [] ∧
    (h.handle run command source).2.active_scope = h.active_scope ∧
    ∀ s c, (h.handle run command source).2.callbacksFor s c =
      h.callbacksFor s c := by
  obtain ⟨h1, h2, h3⟩ := InputHandler.handle_spec h run command source
  exact ⟨by rw [h1, hno]; rfl, h2, h3⟩

theorem inputhandler_handle_unbound_noop_witness :
    (((InputHandler.init ℕ).register "menu" .NEXT 5).handle runW .NEXT
      .GPIO_BUTTON).1 = [] ∧
    (((InputHandler.init ℕ).register "menu" .NEXT 5).handle runW .NEXT
      .GPIO_BUTTON).2.callbacksFor "menu" .NEXT =
      ((InputHandler.init ℕ).register "menu" .NEXT 5).callbacksFor "menu"
        .NEXT := by
  have h := inputhandler_handle_unbound_noop
    ((InputHandler.init ℕ).register "menu" .NEXT 5) runW .NEXT .GPIO_BUTTON (by decide)
  exact ⟨h.1, h.2.2 "menu" .NEXT⟩

/-- C5: a `handle` dispatch invokes the callbacks registered for
`(active_scope, command)` in registration order; an exception raised by
one callback is caught (`handle` itself is total and returns normally)
and every remaining callback is still invoked. -/
theorem inputhandler_dispatch_order_isolation {C : Type} [DecidableEq C]
    (h : InputHandler C) (run : C → InputSource → Except String Unit)
    (command : InputCommand) (source : InputSource) :
    ((h.handle run command source).1.map Prod.fst =
      h.callbacksFor h.active_scope command) ∧
    (∀ cb, cb ∈ h.callbacksFor h.active_scope command →
      (cb, run cb source) ∈ (h.handle run command source).1) ∧
    (∀ pre bad post msg,
      h.callbacksFor h.active_scope command = pre ++ bad :: post →
      run bad source = .error msg →
      (h.handle run command source).1 =
        pre.map (fun cb => (cb, run cb source)) ++
          (bad, .error msg) :: post.map (fun cb => (cb, run cb source))) := by
  obtain ⟨h1, _, _⟩ := InputHandler.handle_spec h run command source
  have hid : (Prod.fst ∘ fun cb : C => (cb, run cb source)) = @id C := rfl
  refine ⟨?_, ?_, ?_⟩
  · rw [h1, List.map_map, hid, List.map_id]
  · intro cb hcb
    rw [h1]
    exact List.mem_map_of_mem _ hcb
  · intro pre bad post msg hsplit hrun
    rw [h1, hsplit]
    simp [hrun]

theorem inputhandler_dispatch_order_isolation_witness :
    (handlerW.handle runW .NEXT .GPIO_BUTTON).1 =
      [(1, .error "boom"), (2, .ok ())] := by
  have h := (inputhandler_dispatch_order_isolation handlerW runW .NEXT
    .GPIO_BUTTON).2.2 [] 1 [2] "boom" (by decide) rfl
  rw [h]
  simp [runW]

/-- C6: registering the same callback twice for the same
`(scope, command)` pair is idempotent — the second registration is a
structural no-op, the callback appears exactly once in the listener
list, and a subsequent `handle` dispatch of that command in that scope
invokes it exactly once. -/
theorem inputhandler_register_idempotent {C : Type} [DecidableEq C]
    (h : InputHandler C) (scope : String) (command : InputCommand) (cb : C)
    (run : C → InputSource → Except String Unit) (source : InputSource)
    (hcount : (h.callbacksFor scope command).count cb ≤ 1) :
    (∀ s c, ((h.register scope command cb).register scope command
        cb).callbacksFor s c = (h.register scope command cb).callbacksFor s c) ∧
    (((h.register scope command cb).register scope command cb).callbacksFor
      scope command).count cb = 1 ∧
    (h.active_scope = scope →
      ((((h.register scope command cb).register scope command cb).handle run
        command source).1.map Prod.fst).count cb = 1) := by
  have hc : ((h.register scope command cb).callbacksFor scope command).count
      cb = 1 := by
    rw [InputHandler.callbacksFor_register]
    by_cases hmem : cb ∈ h.callbacksFor scope command
    · rw [if_neg (fun hcond => hcond.2.2 hmem)]
      exact le_antisymm hcount (List.count_pos_iff.mpr hmem)
    · rw [if_pos ⟨rfl, rfl, hmem⟩]
      simp [List.count_eq_zero_of_not_mem hmem]
  have hmem1 : cb ∈ (h.register scope command cb).callbacksFor scope command :=
    List.count_pos_iff.mp (by rw [hc]; exact Nat.one_pos)
  have hsame : ∀ s c, ((h.register scope command cb).register scope command
      cb).callbacksFor s c = (h.register scope command cb).callbacksFor s c := by
    intro s c
    rw [InputHandler.callbacksFor_register]
    rw [if_neg (fun hcond => hcond.2.2 hmem1)]
  refine ⟨hsame, by rw [hsame, hc], ?_⟩
  intro hactive
  obtain ⟨h1, _, _⟩ := InputHandler.handle_spec
    ((h.register scope command cb).register scope command cb) run command source
  rw [h1]
  simp only [List.map_map]
  have hid : (Prod.fst ∘ fun cb => (cb, run cb source)) = @id C := rfl
  rw [hid, List.map_id]
  rw [InputHandler.register_active_scope, InputHandler.register_active_scope,
    hactive, hsame, hc]

theorem inputhandler_register_idempotent_witness :
    (((InputHandler.init ℕ).register "default" .NEXT 7).register "default"
      .NEXT 7).callbacksFor "default" .NEXT =
      ((InputHandler.init ℕ).register "default" .NEXT 7).callbacksFor
        "default" .NEXT ∧
    (((((InputHandler.init ℕ).register "default" .NEXT 7).register "default"
      .NEXT 7).handle runW .NEXT .GPIO_BUTTON).1.map Prod.fst).count 7 = 1 := by
  have h := inputhandler_register_idempotent (InputHandler.init ℕ) "default"
    .NEXT 7 runW .GPIO_BUTTON (by decide)
  exact ⟨h.1 "default" .NEXT, h.2.2 (by decide)⟩

/-! ## Menu lemmas -/

theorem listIndex_get {α : Type} [DecidableEq α] {l : List α} (hnd : l.Nodup)
    (i : ℕ) (hi : i < l.length) : listIndex l (l.get ⟨i, hi⟩) = i := by
  induction l generalizing i with
  | nil => simp at hi
  | cons y rest ih =>
      cases i with
      | zero => simp [listIndex]
      | succ k =>
          have hk : k < rest.length := by simpa using hi
          have hy : ¬y = rest.get ⟨k, hk⟩ := by
            intro e
            exact (List.nodup_cons.mp hnd).1 (e ▸ rest.get_mem k hk)
          have hgs : (y :: rest).get ⟨k + 1, hi⟩ = rest.get ⟨k, hk⟩ := rfl
          rw [hgs]
          rw [listIndex, if_neg hy, ih (List.nodup_cons.mp hnd).2 k hk]
          omega

theorem pyGet_ofNat {α : Type} (l : List α) (i : ℕ) :
    pyGet l (i : Int) = l.get? i := by
  unfold pyGet
  rw [if_pos (by positivity)]
  simp

theorem pyGet_neg_one {α : Type} (l : List α) (hl : l ≠ []) :
    pyGet l (-1) = l.get? (l.length - 1) := by
  have hlen : 0 < l.length := List.length_pos.mpr hl
  unfold pyGet
  rw [if_neg (by norm_num), if_pos (by omega)]
  norm_num

theorem pyGet_prev {α : Type} (l : List α) (i : ℕ) (hi : i < l.length) :
    pyGet l ((i : Int) - 1) = l.get? (wrapPred l.length i) := by
  cases i with
  | zero =>
      have hl : l ≠ [] := by
        intro e; subst e; simp at hi
      have h0 : (((0 : ℕ) : Int) - 1) = -1 := by norm_num
      rw [h0, pyGet_neg_one l hl]
      simp [wrapPred]
  | succ k =>
      have h1 : ((k + 1 : ℕ) : Int) - 1 = ((k : ℕ) : Int) := by push_cast; ring
      rw [h1, pyGet_ofNat]
      simp [wrapPred]

theorem pyGet_next {α : Type} (l : List α) (i : ℕ) :
    (if i ≠ l.length - 1 then pyGet l ((i : Int) + 1) else pyGet l 0) =
      l.get? (wrapSucc l.length i) := by
  unfold wrapSucc
  by_cases h : i = l.length - 1
  · rw [if_neg (by simpa using h), if_pos h]
    have h0 : (0 : Int) = ((0 : ℕ) : Int) := rfl
    rw [h0, pyGet_ofNat]
  · rw [if_pos h, if_neg h]
    have h1 : ((i : ℕ) : Int) + 1 = ((i + 1 : ℕ) : Int) := by push_cast; ring
    rw [h1, pyGet_ofNat]

theorem wrapPred_lt (len i : ℕ) (h : 0 < len) (hi : i < len) :
    wrapPred len i < len := by
  unfold wrapPred; split <;> omega

theorem wrapSucc_lt (len i : ℕ) (h : 0 < len) (hi : i < len) :
    wrapSucc len i < len := by
  unfold wrapSucc; split <;> omega

theorem wrapPred_wrapSucc (len i : ℕ) (hi : i < len) :
    wrapPred len (wrapSucc len i) = i := by
  unfold wrapPred wrapSucc
  by_cases h : i = len - 1
  · rw [if_pos h, if_pos rfl]
    omega
  · rw [if_neg h, if_neg (by omega)]
    omega

theorem wrapSucc_wrapPred (len i : ℕ) (hi : i < len) :
    wrapSucc len (wrapPred len i) = i := by
  unfold wrapPred wrapSucc
  by_cases h : i = 0
  · rw [if_pos h, if_pos rfl]
    omega
  · rw [if_neg h, if_neg (by omega)]
    omega

namespace MenuNav

/-- What `_get_adjacent_elements` computes when the current element sits
at index `i` of a duplicate-free sibling list. -/
theorem getAdjacentElements_eq {α : Type} [DecidableEq α] (m : MenuNav α)
    (hnd : m.siblings.Nodup) (i : ℕ) (hi : i < m.siblings.length)
    (hcur : m.siblings.get? i = some m.current_element) :
    m.getAdjacentElements =
      { m with
        previous_element :=
          (m.siblings.get? (wrapPred m.siblings.length i)).getD
            m.previous_element
        next_element :=
          (m.siblings.get? (wrapSucc m.siblings.length i)).getD
            m.next_element } := by
  have hgetcur : m.siblings.get ⟨i, hi⟩ = m.current_element := by
    have := List.get?_eq_get hi
    rw [this] at hcur
    exact Option.some.inj hcur
  have hidx : listIndex m.siblings m.current_element = i := by
    rw [← hgetcur]
    exact listIndex_get hnd i hi
  unfold getAdjacentElements
  dsimp only
  rw [hidx, pyGet_prev m.siblings i hi, pyGet_next m.siblings i]

/-- `increment_element` from index `i`: the cursor moves to the next
element, the previous element becomes the old current element, and the
new state sits at index `wrapSucc i`. -/
theorem increment_element_eq {α : Type} [DecidableEq α] (m : MenuNav α)
    (hnd : m.siblings.Nodup) (i : ℕ) (h : m.IsAt i) :
    m.increment_element =
      { siblings := m.siblings
        current_element := m.next_element
        previous_element := m.current_element
        next_element :=
          (m.siblings.get? (wrapSucc m.siblings.length
            (wrapSucc m.siblings.length i))).getD m.next_element } ∧
    m.increment_element.IsAt (wrapSucc m.siblings.length i) := by
  obtain ⟨hi, hcur, hprev, hnext⟩ := h
  have hlen : 0 < m.siblings.length := by omega
  have hj : wrapSucc m.siblings.length i < m.siblings.length :=
    wrapSucc_lt _ _ hlen hi
  have heq : m.increment_element =
      { siblings := m.siblings
        current_element := m.next_element
        previous_element := m.current_element
        next_element :=
          (m.siblings.get? (wrapSucc m.siblings.length
            (wrapSucc m.siblings.length i))).getD m.next_element } := by
    unfold increment_element
    rw [getAdjacentElements_eq { m with current_element := m.next_element }
      hnd (wrapSucc m.siblings.length i) hj hnext]
    rw [wrapPred_wrapSucc _ _ hi, hcur]
    rfl
  refine ⟨heq, ?_⟩
  rw [heq]
  have hjj : wrapSucc m.siblings.length (wrapSucc m.siblings.length i) <
      m.siblings.length := wrapSucc_lt _ _ hlen hj
  refine ⟨hj, hnext, ?_, ?_⟩
  · rw [wrapPred_wrapSucc _ _ hi]
    exact hcur
  · rw [List.get?_eq_get hjj]
    rfl

/-- `decrement_element` from index `i`: the cursor moves to the previous
element, the next element becomes the old current element, and the new
state sits at index `wrapPred i`. -/
theorem decrement_element_eq {α : Type} [DecidableEq α] (m : MenuNav α)
    (hnd : m.siblings.Nodup) (i : ℕ) (h : m.IsAt i) :
    m.decrement_element =
      { siblings := m.siblings
        current_element := m.previous_element
        previous_element :=
          (m.siblings.get? (wrapPred m.siblings.length
            (wrapPred m.siblings.length i))).getD m.previous_element
        next_element := m.current_element } ∧
    m.decrement_element.IsAt (wrapPred m.siblings.length i) := by
  obtain ⟨hi, hcur, hprev, hnext⟩ := h
  have hlen : 0 < m.siblings.length := by omega
  have hj : wrapPred m.siblings.length i < m.siblings.length :=
    wrapPred_lt _ _ hlen hi
  have heq : m.decrement_element =
      { siblings := m.siblings
        current_element := m.previous_element
        previous_element :=
          (m.siblings.get? (wrapPred m.siblings.length
            (wrapPred m.siblings.length i))).getD m.previous_element
        next_element := m.current_element } := by
    unfold decrement_element
    rw [getAdjacentElements_eq { m with current_element := m.previous_element }
      hnd (wrapPred m.siblings.length i) hj hprev]
    rw [wrapSucc_wrapPred _ _ hi, hcur]
    rfl
  refine ⟨heq, ?_⟩
  rw [heq]
  have hjj : wrapPred m.siblings.length (wrapPred m.siblings.length i) <
      m.siblings.length := wrapPred_lt _ _ hlen hj
  refine ⟨hj, hprev, ?_, ?_⟩
  · rw [List.get?_eq_get hjj]
    rfl
  · rw [wrapSucc_wrapPred _ _ hi]
    exact hcur

/-- One step of the round trip: decrementing undoes an increment. -/
theorem decrement_increment {α : Type} [DecidableEq α] (m : MenuNav α)
    (hnd : m.siblings.Nodup) (i : ℕ) (h : m.IsAt i) :
    m.increment_element.decrement_element = m := by
  have hi := h.1
  obtain ⟨hinc, hat⟩ := increment_element_eq m hnd i h
  have hnd' : m.increment_element.siblings.Nodup := by rw [hinc]; exact hnd
  have hleneq : m.increment_element.siblings = m.siblings := by rw [hinc]
  obtain ⟨hdec, _⟩ := decrement_element_eq m.increment_element hnd'
    (wrapSucc m.siblings.length i) hat
  rw [hdec]
  obtain ⟨hilt, hcur, hprev, hnext⟩ := h
  rw [hinc]
  dsimp only
  rw [wrapPred_wrapSucc _ _ hilt, hprev]
  cases m
  rfl

end MenuNav

/-- C7: for a Menu cursor in a non-empty, duplicate-free sibling list
with consistent adjacent elements, `increment_element` applied `N` times
followed by `decrement_element` applied `N` times returns the cursor to
the original state, for every `N`, across wraparound boundaries. -/
theorem menu_increment_decrement_roundtrip {α : Type} [DecidableEq α]
    (m : MenuNav α) (N : ℕ) (hwf : m.WF) :
    (MenuNav.decrement_element)^[N] ((MenuNav.increment_element)^[N] m) = m := by
  induction N generalizing m with
  | zero => rfl
  | succ n ih =>
      obtain ⟨hnd, i, hat⟩ := hwf
      obtain ⟨hinc, hat'⟩ := MenuNav.increment_element_eq m hnd i hat
      have hwf' : m.increment_element.WF :=
        ⟨by rw [hinc]; exact hnd, wrapSucc m.siblings.length i, hat'⟩
      rw [Function.iterate_succ_apply', Function.iterate_succ_apply]
      rw [ih m.increment_element hwf']
      exact MenuNav.decrement_increment m hnd i hat

theorem menu_increment_decrement_roundtrip_witness :
    (MenuNav.decrement_element)^[4]
      ((MenuNav.increment_element)^[4]
        (MenuNav.mk [0, 1, 2] 0 2 1)) = MenuNav.mk [0, 1, 2] 0 2 1 := by
  exact menu_increment_decrement_roundtrip (MenuNav.mk [0, 1, 2] 0 2 1) 4
    ⟨by decide, 0, by unfold MenuNav.IsAt wrapPred wrapSucc; decide⟩

/-- C8 counterexample: a node with tag `menu` and action `options` gets
both an `options` list (from the action) and a `submenu` list (from the
tag), so the two fields are not mutually exclusive for every
tag/action combination. -/
theorem menu_element_options_submenu_counterexample :
    (buildMenuElement (XElem.mk XMLTAG.MENU
      [(XMLATTRIB.ACTION, MENUACTION.OPTIONS)] none [])).options ≠ none ∧
    (buildMenuElement (XElem.mk XMLTAG.MENU
      [(XMLATTRIB.ACTION, MENUACTION.OPTIONS)] none [])).submenu ≠ none := by
  constructor <;>
  · unfold buildMenuElement
    simp [dictGet, XElem.attrib, XElem.tag, XMLTAG.MENU, XMLATTRIB.ACTION,
      MENUACTION.OPTIONS, MENUACTION.SUBMENU, MenuElement.options,
      MenuElement.submenu]

/-- C8 (amended): `options` and `submenu` are mutually exclusive (at
most one non-`None`) for every menu-definition node except one whose tag
is `menu` and whose action attribute is `options`, where both are
populated. -/
theorem menu_element_options_submenu_exclusive (e : XElem)
    (h : ¬(e.tag = XMLTAG.MENU ∧
      (dictGet e.attrib XMLATTRIB.ACTION).getD "pass" = MENUACTION.OPTIONS)) :
    (buildMenuElement e).options = none ∨ (buildMenuElement e).submenu = none := by
  unfold buildMenuElement
  dsimp only [MenuElement.options, MenuElement.submenu]
  by_cases hact :
      (dictGet e.attrib XMLATTRIB.ACTION).getD "pass" = MENUACTION.OPTIONS
  · right
    rw [if_neg ?_]
    push_neg at h
    rcases (fun htag => h htag hact : ¬e.tag = XMLTAG.MENU) with _
    refine fun hcond => ?_
    rcases hcond with htag | hsub
    · exact (h htag) hact
    · rw [hact] at hsub
      exact absurd hsub (by decide)
  · left
    rw [if_neg hact]

theorem menu_element_options_submenu_exclusive_witness :
    (buildMenuElement (XElem.mk XMLTAG.MENU_ITEM
      [(XMLATTRIB.ACTION, MENUACTION.OPTIONS)] none [])).options = none ∨
    (buildMenuElement (XElem.mk XMLTAG.MENU_ITEM
      [(XMLATTRIB.ACTION, MENUACTION.OPTIONS)] none [])).submenu = none :=
  menu_element_options_submenu_exclusive _ (by decide)

end PiKite
